import Mathlib

/-!
Verification of the pykabu-calendar reconciliation engine.

This file is a shallow embedding of the decision logic of
`src/pykabu_calendar/earnings/calendar.py` (merge stage, confidence
scoring, candidate building), `earnings/inference.py` (historical
inference and the trading-session classifier) and `core/parallel.py`
(the parallel task runner), together with theorems settling the stated
properties of that logic.

A pandas `Timestamp` is modelled as a record of a day index (encoding
the full calendar date opaquely) plus wall-clock hour, minute and
second; `pd.NaT` / a missing column value is modelled by `Option`.
-/

namespace PykabuCalendar

/-- A concrete instant: `day` encodes the calendar date (opaquely, as a
day number), the remaining fields are the wall-clock time components.
Exact-instant equality is decidable field-wise equality. -/
structure Timestamp where
  day : Nat
  hour : Nat
  minute : Nat
  sec : Nat
deriving DecidableEq, Repr

/-- The `%H:%M` strftime projection used throughout the source for
time-of-day comparisons: the (hour, minute) pair, ignoring date and
seconds. -/
def hm (t : Timestamp) : Nat × Nat := (t.hour, t.minute)

/-- Canonical source tags, in the fixed column order of
`datetime_cols` in `_build_candidates`. -/
inductive Tag where
  | ir
  | inferred
  | sbi
  | matsui
  | tradersweb
deriving DecidableEq, Repr

/-- `datetime_cols` from `_build_candidates`: the canonical column
order `ir, inferred, sbi, matsui, tradersweb`. -/
def availableCols : List Tag :=
  [Tag.ir, Tag.inferred, Tag.sbi, Tag.matsui, Tag.tradersweb]

/-- `scraper_cols`: every available column except `ir_datetime` and
`inferred_datetime`. -/
def scraperCols : List Tag := [Tag.sbi, Tag.matsui, Tag.tradersweb]

/-- An entity row restricted to its datetime observations: one
optional value per canonical source tag.  A missing column and a
`NaT` cell behave identically in `build_row_candidates` (both fail the
`pd.notna` test), so both are `none`. -/
structure Row where
  ir : Option Timestamp
  inferred : Option Timestamp
  sbi : Option Timestamp
  matsui : Option Timestamp
  tradersweb : Option Timestamp
deriving DecidableEq, Repr

/-- Column access on a row. -/
def Row.get (r : Row) : Tag → Option Timestamp
  | Tag.ir => r.ir
  | Tag.inferred => r.inferred
  | Tag.sbi => r.sbi
  | Tag.matsui => r.matsui
  | Tag.tradersweb => r.tradersweb

/-- The `values` dict of `build_row_candidates`: the present
(non-absent) observations, keyed by tag, in canonical column order. -/
def rowValues (r : Row) : List (Tag × Timestamp) :=
  availableCols.filterMap (fun c => (r.get c).map (fun v => (c, v)))

/-- The `scrapers` sub-dict: the present observations whose tag is a
scraper column, preserving canonical order. -/
def rowScrapers (r : Row) : List (Tag × Timestamp) :=
  (rowValues r).filter (fun p => decide (p.1 ∈ scraperCols))

/-- `set(times)` size bookkeeping: the distinct elements of a list in
first-occurrence order (insertion order of a Python dict/Counter). -/
def firstUniques {α : Type} [DecidableEq α] : List α → List α
  | [] => []
  | a :: l => a :: firstUniques (l.filter (fun b => b ≠ a))
termination_by l => l.length
decreasing_by
  simp only [List.length_cons]
  exact Nat.lt_succ_of_le (List.length_filter_le _ _)

/-- `_compute_confidence(ir_val, inferred, scrapers)` from
`earnings/calendar.py`:
* IR present → `"highest"`;
* else if inferred present and some scraper shares its `%H:%M` →
  `"high"`;
* else with ≥ 2 scrapers: duplicate `%H:%M` strings → `"high"`,
  otherwise `"medium"`;
* else `"low"`. -/
def compute_confidence (irVal : Option Timestamp) (inferred : Option Timestamp)
    (scrapers : List (Tag × Timestamp)) : String :=
  if irVal.isSome then "highest"
  else if (match inferred with
    | some i => !scrapers.isEmpty && scrapers.any (fun p => hm p.2 == hm i)
    | none => false) then "high"
  else if scrapers.length ≥ 2 then
    let times := scrapers.map (fun p => hm p.2)
    if (firstUniques times).length ≠ times.length then "high" else "medium"
  else "low"


/-- Spec-side rendering of the confidence rules, written from the
claim's words (used to compare against `compute_confidence`, which is
translated from the source): `highest` when IR is present; else `high`
when the inferred value is present and some scraper value's
hour:minute equals the inferred value's hour:minute; else, with at
least 2 scraper entries, `high` if any two scraper hour:minute strings
are equal and `medium` if none are; otherwise `low`. -/
def confidenceSpec (irVal inferred : Option Timestamp)
    (scrapers : List (Tag × Timestamp)) : String :=
  if irVal.isSome then "highest"
  else
    match inferred with
    | some i =>
      if ∃ p ∈ scrapers, hm p.2 = hm i then "high"
      else if 2 ≤ scrapers.length then
        if ¬ (scrapers.map (fun p => hm p.2)).Nodup then "high" else "medium"
      else "low"
    | none =>
      if 2 ≤ scrapers.length then
        if ¬ (scrapers.map (fun p => hm p.2)).Nodup then "high" else "medium"
      else "low"

/-- `is_during_trading_hours` from `earnings/inference.py`: absent →
`false`; otherwise true iff the minutes-since-midnight of the
wall-clock time lie in `[540, 690)` or `[750, 930)`. -/
def is_during_trading_hours (dt : Option Timestamp) : Bool :=
  match dt with
  | none => false
  | some t =>
    let minutes := t.hour * 60 + t.minute
    if 540 ≤ minutes ∧ minutes < 690 then true
    else if 750 ≤ minutes ∧ minutes < 930 then true
    else false

/-- The `if v not in candidates: candidates.append(v)` loop pattern:
append each element of `l` to `acc` unless an equal element is already
present (exact-instant comparison, Python list `in`). -/
def dedupAppend (acc : List Timestamp) (l : List Timestamp) : List Timestamp :=
  l.foldl (fun cs v => if v ∈ cs then cs else cs ++ [v]) acc

/-- The `time_groups` dict of the scraper-agreement branch: scraper
values grouped by `%H:%M` string, keys in first-occurrence order
(Python dict insertion order), each group listing its members in
canonical scraper order (`setdefault(...).append`). -/
def timeGroups (scrapers : List (Tag × Timestamp)) :
    List ((Nat × Nat) × List Timestamp) :=
  scrapers.foldl (fun acc p =>
    let t := hm p.2
    if acc.any (fun q => q.1 == t) then
      acc.map (fun q => if q.1 == t then (q.1, q.2 ++ [p.2]) else q)
    else acc ++ [(t, [p.2])]) []

/-- Python's `max(..., key=len)` over the group lists: the first
element of maximal length (`max` keeps the incumbent on ties). -/
def firstMax (gs : List (List Timestamp)) : List Timestamp :=
  match gs with
  | [] => []
  | g :: rest => rest.foldl (fun b g' => if g'.length > b.length then g' else b) g

/-- `largest_group = max(time_groups.values(), key=len)`.  (Python
would raise on an empty dict; the branch using this is guarded by
`len(scrapers) >= 2`, so the `[]` default is never consulted there.) -/
def largestGroup (scrapers : List (Tag × Timestamp)) : List Timestamp :=
  firstMax ((timeGroups scrapers).map Prod.snd)

/-- The priority order of the no-agreement fallback branch:
`inferred > sbi > matsui > tradersweb`. -/
def priorityCols : List Tag :=
  [Tag.inferred, Tag.sbi, Tag.matsui, Tag.tradersweb]

/-- The scraper-agreement branch and the fallback branch of
`build_row_candidates` (reached when the IR branch and the
inferred-match branch did not return). -/
def branchTail (vals scrapers : List (Tag × Timestamp)) (confidence : String) :
    List Timestamp × Option Timestamp × String :=
  if confidence = "high" ∧ scrapers.length ≥ 2 then
    let grp := largestGroup scrapers
    let candidates := dedupAppend grp (vals.map Prod.snd)
    (candidates, candidates.head?, confidence)
  else
    let candidates := priorityCols.filterMap (fun c => (vals.lookup c))
    (candidates, candidates.head?, confidence)

/-- `build_row_candidates(row)` from `_build_candidates` in
`earnings/calendar.py`: returns
`(candidate list, selected datetime, confidence)`.

Branches, in source order: empty row; IR present (IR first, then the
remaining present values deduplicated); confidence `high` with the
inferred value matching some scraper's `%H:%M` (inferred first, then
the scraper values deduplicated); confidence `high` with ≥ 2 scrapers
(the largest `%H:%M` group extended verbatim, then all remaining
present values deduplicated); otherwise the fixed priority order. -/
def build_row_candidates (r : Row) : List Timestamp × Option Timestamp × String :=
  let vals := rowValues r
  if vals.isEmpty then ([], none, "low")
  else
    let irVal := vals.lookup Tag.ir
    let inferred := vals.lookup Tag.inferred
    let scrapers := rowScrapers r
    let confidence := compute_confidence irVal inferred scrapers
    match irVal with
    | some iv =>
      let rest := vals.filterMap (fun p => if p.1 ≠ Tag.ir then some p.2 else none)
      let candidates := dedupAppend [iv] rest
      (candidates, candidates.head?, confidence)
    | none =>
      match inferred with
      | some i =>
        if confidence = "high" ∧ ¬scrapers.isEmpty ∧
            scrapers.any (fun p => hm p.2 == hm i) then
          let candidates := dedupAppend [i] (scrapers.map Prod.snd)
          (candidates, candidates.head?, confidence)
        else branchTail vals scrapers confidence
      | none => branchTail vals scrapers confidence

/-- `Counter(past_times).most_common(1)[0]`: the `(time, count)` pair
whose count is maximal, ties broken by first occurrence in the input
(Counter iteration order; `heapq.nlargest` is stable). -/
def mostCommonHM (times : List (Nat × Nat)) : Option ((Nat × Nat) × Nat) :=
  (firstUniques times).foldl (fun acc t =>
    match acc with
    | none => some (t, times.count t)
    | some (b, c) => if times.count t > c then some (t, times.count t) else some (b, c))
    none

/-- `infer_datetime(code, date, past_datetimes)` from
`earnings/inference.py`, with the network-free spine made explicit:
`past` is the (pre-fetched) history list, and `dateVal` is the result
of parsing the target date string (`none` when
`pd.Timestamp(f"{date} {most_common_time}")` would raise, which
depends only on the date part since the appended time is a valid
`%H:%M` rendering).

Returns `(inferred datetime, confidence label, history list)`.  The
ratio thresholds `0.75` and `0.5` are expressed exactly over naturals
(`4*count ≥ 3*n` and `2*count ≥ n`). -/
def infer_datetime (dateVal : Option Nat) (past : List Timestamp) :
    Option Timestamp × String × List Timestamp :=
  if past.isEmpty then (none, "none", [])
  else
    let times := past.map hm
    let mc := match mostCommonHM times with
      | some x => x
      | none => ((0, 0), 0)
    let confidence :=
      if (firstUniques times).length = 1 ∨ 4 * mc.2 ≥ 3 * times.length then "high"
      else if 2 * mc.2 ≥ times.length then "medium"
      else "low"
    match dateVal with
    | some d => (some ⟨d, mc.1.1, mc.1.2, 0⟩, confidence, past)
    | none => (none, "none", past)

/-- The outcome of invoking one zero-argument task: either a returned
value or a raised exception (carrying a message). -/
abbrev TaskOutcome (α : Type) := Except String α

/-- `run_parallel(tasks, max_workers)` from `core/parallel.py`,
modelled on task outcomes: every task that completes without raising
contributes its `name → result` entry; a raising task is logged and
omitted.  The thread pool's completion order only permutes dict
insertion order, never the set of entries, so the result mapping is
modelled keyed in task order.  An empty task dict returns `{}`. -/
def run_parallel {α : Type} (tasks : List (String × TaskOutcome α)) :
    List (String × α) :=
  tasks.filterMap (fun p =>
    match p.2 with
    | Except.ok a => some (p.1, a)
    | Except.error _ => none)

/-- One row of a per-source table handed to `_merge_sources`:
`(code, name, datetime)`, the latter two nullable. -/
structure SrcRow where
  code : String
  name : Option String
  dt : Option Timestamp
deriving DecidableEq, Repr

/-- A per-source table: its rows plus whether the frame has a `name`
column at all (the merge logic tests `"name" in df.columns`). -/
structure SrcTable where
  hasName : Bool
  rows : List SrcRow
deriving DecidableEq, Repr

/-- A row of the merged frame: code, consolidated name, and one
source-tagged datetime column per merged source. -/
structure MergedRow where
  code : String
  name : Option String
  dts : List (String × Option Timestamp)
deriving DecidableEq, Repr

/-- The merged frame: its rows plus column bookkeeping (`hasName`
records whether a `name` column exists, `colTags` the source-tagged
datetime columns added so far). -/
structure MergedTable where
  hasName : Bool
  colTags : List String
  rows : List MergedRow
deriving DecidableEq, Repr

/-- One iteration of the `_merge_sources` loop: outer-join the next
source's frame (restricted to `code`, its tagged datetime column, and
`name` only when the source has a name column and the accumulated
frame does not) onto the accumulated frame, keyed on `code`.  Source
tables are assumed to carry at most one row per code (the pandas merge
would otherwise multiply rows).  Note the `name_dup`/`fillna`
consolidation step of the source is unreachable: the right frame
carries a `name` column only when the left frame has none, so the
`_dup` suffix collision never occurs. -/
def mergeStep (m : MergedTable) (tag : String) (t : SrcTable) : MergedTable :=
  let includeName := t.hasName && !m.hasName
  let leftRows := m.rows.map (fun r =>
    match t.rows.find? (fun s => s.code == r.code) with
    | some s =>
      { code := r.code
        name := if m.hasName then r.name
                else if includeName then s.name else none
        dts := r.dts ++ [(tag, s.dt)] }
    | none => { r with dts := r.dts ++ [(tag, none)] })
  let rightOnly := (t.rows.filter
      (fun s => !(m.rows.any (fun r => r.code == s.code)))).map (fun s =>
    { code := s.code
      name := if includeName then s.name else none
      dts := m.colTags.map (fun tg => (tg, (none : Option Timestamp)))
               ++ [(tag, s.dt)] })
  { hasName := m.hasName || includeName
    colTags := m.colTags ++ [tag]
    rows := leftRows ++ rightOnly }

/-- `_merge_sources(source_data)` from `earnings/calendar.py`: start
from the first source's frame (datetime column renamed to
`{tag}_datetime`), then fold `mergeStep` over the remaining sources in
dict order.  `none` models the `sources[0]` failure on an empty dict
(the caller never passes one). -/
def merge_sources : List (String × SrcTable) → Option MergedTable
  | [] => none
  | (tag, t) :: rest =>
    let m0 : MergedTable :=
      { hasName := t.hasName
        colTags := [tag]
        rows := t.rows.map (fun s =>
          { code := s.code
            name := if t.hasName then s.name else none
            dts := [(tag, s.dt)] }) }
    some (rest.foldl (fun m p => mergeStep m p.1 p.2) m0)

/-- Lookup of a merged row by entity code. -/
def MergedTable.findCode (m : MergedTable) (code : String) : Option MergedRow :=
  m.rows.find? (fun r => r.code == code)

/-! ### Properties of `firstUniques` (distinct elements, first-occurrence order) -/

theorem firstUniques_mem {α : Type} [DecidableEq α] (l : List α) (a : α) :
    a ∈ firstUniques l ↔ a ∈ l := by
  induction l using firstUniques.induct with
  | case1 => simp [firstUniques]
  | case2 b l ih =>
    rw [firstUniques]
    simp only [List.mem_cons, ih, List.mem_filter]
    by_cases hab : a = b
    · simp [hab]
    · simp [hab]

theorem firstUniques_length_le {α : Type} [DecidableEq α] (l : List α) :
    (firstUniques l).length ≤ l.length := by
  induction l using firstUniques.induct with
  | case1 => simp [firstUniques]
  | case2 b l ih =>
    rw [firstUniques]
    simp only [List.length_cons]
    exact Nat.succ_le_succ (le_trans ih (List.length_filter_le _ _))

theorem firstUniques_eq_nil {α : Type} [DecidableEq α] (l : List α) :
    firstUniques l = [] ↔ l = [] := by
  cases l with
  | nil => simp [firstUniques]
  | cons a l => simp [firstUniques]

theorem firstUniques_append_singleton {α : Type} [DecidableEq α] (l : List α) (a : α) :
    firstUniques (l ++ [a]) =
      if a ∈ l then firstUniques l else firstUniques l ++ [a] := by
  induction l using firstUniques.induct with
  | case1 => simp [firstUniques]
  | case2 b l ih =>
    by_cases hab : a = b
    · subst hab
      simp only [List.cons_append, firstUniques, List.mem_cons, true_or, if_true]
      have : (l ++ [a]).filter (fun c => c ≠ a) = l.filter (fun c => c ≠ a) := by
        simp [List.filter_append]
      rw [this]
    · simp only [List.cons_append, firstUniques]
      have hfilt : (l ++ [a]).filter (fun c => c ≠ b) =
          l.filter (fun c => c ≠ b) ++ [a] := by
        simp [List.filter_append, hab]
      rw [hfilt, ih]
      have hmem : a ∈ l.filter (fun c => c ≠ b) ↔ a ∈ l := by
        simp [List.mem_filter, hab]
      by_cases hal : a ∈ l
      · simp [hmem, hal, hab]
      · simp [hmem, hal, hab]

theorem firstUniques_length_eq_iff {α : Type} [DecidableEq α] (l : List α) :
    (firstUniques l).length = l.length ↔ l.Nodup := by
  induction l using firstUniques.induct with
  | case1 => simp [firstUniques]
  | case2 b l ih =>
    rw [firstUniques]
    simp only [List.length_cons, List.nodup_cons, Nat.succ_inj]
    constructor
    · intro h
      have hfl : (l.filter (fun c => c ≠ b)).length = l.length := by
        have h1 := firstUniques_length_le (l.filter (fun c => c ≠ b))
        have h2 := List.length_filter_le (fun c => decide (c ≠ b)) l
        omega
      have hall : ∀ c ∈ l, c ≠ b := by
        intro c hc
        have := (List.filter_length_eq_length).mp hfl c hc
        simpa using this
      have hfeq : l.filter (fun c => c ≠ b) = l := by
        apply List.filter_eq_self.mpr
        intro c hc; simpa using hall c hc
      rw [hfeq] at ih h
      exact ⟨fun hb => (hall b hb rfl), ih.mp h⟩
    · rintro ⟨hnb, hnd⟩
      have hfeq : l.filter (fun c => c ≠ b) = l := by
        apply List.filter_eq_self.mpr
        intro c hc
        simp only [ne_eq, decide_eq_true_eq]
        intro hcb; exact hnb (hcb ▸ hc)
      rw [hfeq] at ih
      rw [hfeq]
      exact ih.mpr hnd

theorem firstUniques_length_one {α : Type} [DecidableEq α] (l : List α) (hl : l ≠ []) :
    (firstUniques l).length = 1 ↔ ∀ a ∈ l, ∀ b ∈ l, a = b := by
  cases l with
  | nil => exact absurd rfl hl
  | cons c l =>
    rw [firstUniques]
    simp only [List.length_cons, Nat.succ_inj, List.length_eq_zero]
    rw [firstUniques_eq_nil (l := l.filter (fun b => b ≠ c))]
    constructor
    · intro h a ha b hb
      have hall : ∀ x ∈ l, x = c := by
        intro x hx
        by_contra hxc
        have : x ∈ l.filter (fun b => b ≠ c) := by
          simp [List.mem_filter, hxc, hx]
        rw [h] at this
        exact absurd this (List.not_mem_nil x)
      have hac : a = c := by
        rcases List.mem_cons.mp ha with h1 | h1
        · exact h1
        · exact hall a h1
      have hbc : b = c := by
        rcases List.mem_cons.mp hb with h1 | h1
        · exact h1
        · exact hall b h1
      rw [hac, hbc]
    · intro h
      apply List.filter_eq_nil_iff.mpr
      intro x hx
      have hxc := h x (List.mem_cons_of_mem c hx) c (List.mem_cons_self c l)
      simp [hxc]

/-! ### The dedup-append loop and the selected/head invariant -/

theorem dedupAppend_decomp (l : List Timestamp) : ∀ acc, ∃ ext,
    dedupAppend acc l = acc ++ ext ∧ ext.Nodup ∧ (∀ v ∈ ext, v ∉ acc) ∧
    (∀ v ∈ ext, v ∈ l) ∧ (∀ v ∈ l, v ∈ acc ∨ v ∈ ext) := by
  induction l with
  | nil =>
    intro acc
    exact ⟨[], by simp [dedupAppend]⟩
  | cons v l ih =>
    intro acc
    by_cases hv : v ∈ acc
    · have heq : dedupAppend acc (v :: l) = dedupAppend acc l := by
        simp [dedupAppend, hv]
      obtain ⟨ext, h1, h2, h3, h4, h5⟩ := ih acc
      refine ⟨ext, heq ▸ h1, h2, h3, ?_, ?_⟩
      · exact fun w hw => List.mem_cons_of_mem v (h4 w hw)
      · intro w hw
        rcases List.mem_cons.mp hw with rfl | hw'
        · exact Or.inl hv
        · exact h5 w hw'
    · have heq : dedupAppend acc (v :: l) = dedupAppend (acc ++ [v]) l := by
        simp [dedupAppend, hv]
      obtain ⟨ext, h1, h2, h3, h4, h5⟩ := ih (acc ++ [v])
      refine ⟨v :: ext, ?_, ?_, ?_, ?_, ?_⟩
      · rw [heq, h1]; simp
      · refine List.nodup_cons.mpr ⟨?_, h2⟩
        intro hvext
        exact (h3 v hvext) (by simp)
      · intro w hw
        rcases List.mem_cons.mp hw with rfl | hw'
        · exact hv
        · intro hwacc
          exact (h3 w hw') (by simp [hwacc])
      · intro w hw
        rcases List.mem_cons.mp hw with rfl | hw'
        · exact List.mem_cons_self w l
        · exact List.mem_cons_of_mem v (h4 w hw')
      · intro w hw
        rcases List.mem_cons.mp hw with rfl | hw'
        · exact Or.inr (List.mem_cons_self w ext)
        · rcases h5 w hw' with hx | hx
          · rcases List.mem_append.mp hx with hx' | hx'
            · exact Or.inl hx'
            · simp only [List.mem_singleton] at hx'
              exact Or.inr (hx' ▸ List.mem_cons_self v ext)
          · exact Or.inr (List.mem_cons_of_mem v hx)

theorem dedupAppend_head? (acc l : List Timestamp) :
    (dedupAppend acc l).head? = acc.head? ∨ acc = [] := by
  obtain ⟨ext, h1, -⟩ := dedupAppend_decomp l acc
  cases acc with
  | nil => exact Or.inr rfl
  | cons a acc' => exact Or.inl (by rw [h1]; rfl)

theorem build_selected_eq_head (r : Row) :
    (build_row_candidates r).2.1 = (build_row_candidates r).1.head? := by
  unfold build_row_candidates branchTail
  dsimp only
  repeat' split <;> try rfl

/-! ### Structural lemmas about rows -/

theorem rowValues_lookup (r : Row) (c : Tag) :
    (rowValues r).lookup c = r.get c := by
  rcases r with ⟨i1, i2, s1, s2, s3⟩
  cases c <;> cases i1 <;> cases i2 <;> cases s1 <;> cases s2 <;> cases s3 <;> rfl

theorem rowScrapers_eq (r : Row) :
    rowScrapers r = scraperCols.filterMap (fun c => (r.get c).map (fun v => (c, v))) := by
  rcases r with ⟨i1, i2, s1, s2, s3⟩
  cases i1 <;> cases i2 <;> cases s1 <;> cases s2 <;> cases s3 <;> rfl

theorem rowValues_isEmpty (r : Row) :
    (rowValues r).isEmpty = true ↔
      r.ir = none ∧ r.inferred = none ∧ r.sbi = none ∧ r.matsui = none ∧
        r.tradersweb = none := by
  rcases r with ⟨i1, i2, s1, s2, s3⟩
  cases i1 <;> cases i2 <;> cases s1 <;> cases s2 <;> cases s3 <;> simp [rowValues, availableCols, Row.get]

/-! ### The confidence function agrees with its specification -/

theorem compute_eq_spec (irVal inferred : Option Timestamp)
    (scrapers : List (Tag × Timestamp)) :
    compute_confidence irVal inferred scrapers =
      confidenceSpec irVal inferred scrapers := by
  unfold compute_confidence confidenceSpec
  cases irVal with
  | some v => rfl
  | none =>
    simp only [Option.isSome_none, Bool.false_eq_true, if_false]
    have hdup : ((firstUniques (scrapers.map fun p => hm p.2)).length ≠
        (scrapers.map fun p => hm p.2).length) ↔
        ¬ (scrapers.map fun p => hm p.2).Nodup := by
      rw [not_iff_not]
      exact firstUniques_length_eq_iff _
    cases inferred with
    | none =>
      dsimp only
      rw [if_neg (fun hc => Bool.false_ne_true hc)]
      by_cases h2 : scrapers.length ≥ 2
      · rw [if_pos h2, if_pos h2]
        by_cases hd : ¬ (scrapers.map fun p => hm p.2).Nodup
        · rw [if_pos (hdup.mpr hd), if_pos hd]
        · rw [if_neg (fun hc => hd (hdup.mp hc)), if_neg hd]
      · rw [if_neg h2, if_neg h2]
    | some i =>
      dsimp only
      by_cases hex : ∃ p ∈ scrapers, hm p.2 = hm i
      · have hb : (!scrapers.isEmpty && scrapers.any fun p => hm p.2 == hm i) = true := by
          obtain ⟨p, hp, he⟩ := hex
          have h1 : scrapers.isEmpty = false := by
            cases scrapers with
            | nil => exact absurd hp (List.not_mem_nil p)
            | cons q l => rfl
          have h2 : (scrapers.any fun p => hm p.2 == hm i) = true :=
            List.any_eq_true.mpr ⟨p, hp, beq_iff_eq.mpr he⟩
          rw [h1, h2]
          rfl
        rw [if_pos hb, if_pos hex]
      · have hb : ¬ ((!scrapers.isEmpty && scrapers.any fun p => hm p.2 == hm i) = true) := by
          intro hc
          simp only [Bool.and_eq_true] at hc
          obtain ⟨p, hp, he⟩ := List.any_eq_true.mp hc.2
          exact hex ⟨p, hp, beq_iff_eq.mp he⟩
        rw [if_neg hb, if_neg hex]
        by_cases h2 : scrapers.length ≥ 2
        · rw [if_pos h2, if_pos h2]
          by_cases hd : ¬ (scrapers.map fun p => hm p.2).Nodup
          · rw [if_pos (hdup.mpr hd), if_pos hd]
          · rw [if_neg (fun hc => hd (hdup.mp hc)), if_neg hd]
        · rw [if_neg h2, if_neg h2]

/-! ### The largest-group selection (`max(..., key=len)`) -/

theorem foldl_max_spec (rest : List (List Timestamp)) :
    ∀ g0 : List Timestamp,
      (∃ pre post,
        g0 :: rest = pre ++
          (rest.foldl (fun b g => if g.length > b.length then g else b) g0) :: post ∧
        ∀ g ∈ pre, g.length <
          (rest.foldl (fun b g => if g.length > b.length then g else b) g0).length) ∧
      ∀ g ∈ g0 :: rest, g.length ≤
        (rest.foldl (fun b g => if g.length > b.length then g else b) g0).length := by
  induction rest with
  | nil =>
    intro g0
    refine ⟨⟨[], [], rfl, by simp⟩, ?_⟩
    simp
  | cons g1 rest ih =>
    intro g0
    by_cases hgt : g1.length > g0.length
    · have hstep : (g1 :: rest).foldl
          (fun b g => if g.length > b.length then g else b) g0 =
          rest.foldl (fun b g => if g.length > b.length then g else b) g1 := by
        simp [hgt]
      obtain ⟨⟨pre, post, hsplit, hpre⟩, hmax⟩ := ih g1
      rw [hstep]
      have hg1le : g1.length ≤
          (rest.foldl (fun b g => if g.length > b.length then g else b) g1).length :=
        hmax g1 (List.mem_cons_self g1 rest)
      constructor
      · refine ⟨g0 :: pre, post, ?_, ?_⟩
        · rw [List.cons_append, ← hsplit]
        · intro g hg
          rcases List.mem_cons.mp hg with rfl | hg'
          · omega
          · exact hpre g hg'
      · intro g hg
        rcases List.mem_cons.mp hg with rfl | hg'
        · omega
        · exact hmax g hg'
    · have hstep : (g1 :: rest).foldl
          (fun b g => if g.length > b.length then g else b) g0 =
          rest.foldl (fun b g => if g.length > b.length then g else b) g0 := by
        simp [hgt]
      obtain ⟨⟨pre, post, hsplit, hpre⟩, hmax⟩ := ih g0
      rw [hstep]
      have hg0le : g0.length ≤
          (rest.foldl (fun b g => if g.length > b.length then g else b) g0).length :=
        hmax g0 (List.mem_cons_self g0 rest)
      constructor
      · cases pre with
        | nil =>
          have h1 : g0 = rest.foldl (fun b g => if g.length > b.length then g else b) g0 := by
            have := hsplit
            simp only [List.nil_append] at this
            exact (List.cons_eq_cons.mp this).1
          refine ⟨[], g1 :: rest, ?_, by simp⟩
          rw [List.nil_append, ← h1]
        | cons p0 pre' =>
          have h1 : g0 = p0 ∧ rest = pre' ++
              (rest.foldl (fun b g => if g.length > b.length then g else b) g0) :: post := by
            have := hsplit
            simp only [List.cons_append] at this
            exact List.cons_eq_cons.mp this
          refine ⟨g0 :: g1 :: pre', post, ?_, ?_⟩
          · rw [List.cons_append, List.cons_append, ← h1.2]
          · intro g hg
            have hp0 : p0.length <
                (rest.foldl (fun b g => if g.length > b.length then g else b) g0).length :=
              hpre p0 (List.mem_cons_self p0 pre')
            rcases List.mem_cons.mp hg with rfl | hg'
            · have heq : g.length = p0.length := by rw [h1.1]
              omega
            · rcases List.mem_cons.mp hg' with rfl | hg''
              · have heq : g0.length = p0.length := by rw [h1.1]
                omega
              · exact hpre g (List.mem_cons_of_mem p0 hg'')
      · intro g hg
        rcases List.mem_cons.mp hg with rfl | hg'
        · exact hg0le
        · rcases List.mem_cons.mp hg' with rfl | hg''
          · omega
          · exact hmax g (List.mem_cons_of_mem g0 hg'')

theorem firstMax_spec (gs : List (List Timestamp)) (h : gs ≠ []) :
    (∃ pre post, gs = pre ++ (firstMax gs) :: post ∧
      ∀ g ∈ pre, g.length < (firstMax gs).length) ∧
    ∀ g ∈ gs, g.length ≤ (firstMax gs).length := by
  cases gs with
  | nil => exact absurd rfl h
  | cons g0 rest =>
    have := foldl_max_spec rest g0
    simpa [firstMax] using this

/-! ### Closed form of the time-of-day grouping -/

theorem timeGroups_eq (scr : List (Tag × Timestamp)) :
    timeGroups scr = (firstUniques (scr.map (fun p => hm p.2))).map
      (fun t => (t, (scr.map Prod.snd).filter (fun v => hm v == t))) := by
  induction scr using List.reverseRecOn with
  | nil => simp [timeGroups, firstUniques]
  | append_singleton scr p ih =>
    have hstep : timeGroups (scr ++ [p]) =
        (if (timeGroups scr).any (fun q => q.1 == hm p.2) then
          (timeGroups scr).map (fun q =>
            if q.1 == hm p.2 then (q.1, q.2 ++ [p.2]) else q)
        else timeGroups scr ++ [(hm p.2, [p.2])]) := by
      simp only [timeGroups, List.foldl_append, List.foldl_cons, List.foldl_nil]
    have hmaps : (scr ++ [p]).map (fun q => hm q.2) =
        scr.map (fun q => hm q.2) ++ [hm p.2] := by simp
    have hsnd : (scr ++ [p]).map Prod.snd = scr.map Prod.snd ++ [p.2] := by simp
    have hkeys : ((timeGroups scr).any (fun q => q.1 == hm p.2)) = true ↔
        hm p.2 ∈ scr.map (fun q => hm q.2) := by
      rw [ih]
      constructor
      · intro h
        obtain ⟨q, hq, he⟩ := List.any_eq_true.mp h
        obtain ⟨t, ht, rfl⟩ := List.mem_map.mp hq
        exact (firstUniques_mem _ _).mp ((beq_iff_eq.mp he) ▸ ht)
      · intro h
        refine List.any_eq_true.mpr ?_
        refine ⟨(hm p.2, (scr.map Prod.snd).filter (fun v => hm v == hm p.2)), ?_, by simp⟩
        exact List.mem_map.mpr ⟨hm p.2, (firstUniques_mem _ _).mpr h, rfl⟩
    rw [hstep, hmaps, hsnd, firstUniques_append_singleton]
    by_cases hmem : hm p.2 ∈ scr.map (fun q => hm q.2)
    · rw [if_pos (hkeys.mpr hmem), if_pos hmem, ih, List.map_map]
      apply List.map_congr_left
      intro t ht
      simp only [Function.comp_apply]
      by_cases hte : t = hm p.2
      · have hbeq : (t == hm p.2) = true := beq_iff_eq.mpr hte
        rw [if_pos hbeq, List.filter_append]
        have hone : [p.2].filter (fun v => hm v == t) = [p.2] := by
          simp [List.filter_cons, hte]
        rw [hone]
      · have hbeq : ¬ ((t == hm p.2) = true) := by
          simp [hte]
        rw [if_neg hbeq, List.filter_append]
        have hb : (hm p.2 == t) = false :=
          beq_eq_false_iff_ne.mpr (fun h => hte h.symm)
        have hone : [p.2].filter (fun v => hm v == t) = [] := by
          simp [List.filter_cons, hb]
        rw [hone, List.append_nil]
    · rw [if_neg (fun hc => hmem (hkeys.mp hc)), if_neg hmem, ih, List.map_append]
      congr 1
      · apply List.map_congr_left
        intro t ht
        have htmem : t ∈ scr.map (fun q => hm q.2) := (firstUniques_mem _ _).mp ht
        have hne : hm p.2 ≠ t := fun h => hmem (h ▸ htmem)
        rw [List.filter_append]
        have hone : [p.2].filter (fun v => hm v == t) = [] := by
          simp [List.filter_cons, hne]
        rw [hone, List.append_nil]
      · simp only [List.map_cons, List.map_nil]
        have hnone : (scr.map Prod.snd).filter (fun v => hm v == hm p.2) = [] := by
          apply List.filter_eq_nil_iff.mpr
          intro v hv
          obtain ⟨q, hq, rfl⟩ := List.mem_map.mp hv
          have hmm : hm q.2 ∈ scr.map (fun q => hm q.2) :=
            List.mem_map.mpr ⟨q, hq, rfl⟩
          intro hc
          exact hmem ((beq_iff_eq.mp hc) ▸ hmm)
        rw [List.filter_append, hnone]
        have hone : [p.2].filter (fun v => hm v == hm p.2) = [p.2] := by
          simp [List.filter_cons]
        rw [hone, List.nil_append]

/-! ### The most-common time-of-day selection -/

theorem foldl_mostCommon_spec (f : (Nat × Nat) → Nat) (us : List (Nat × Nat)) :
    ∀ t0 : Nat × Nat,
      ∃ t, us.foldl (fun acc t => match acc with
          | none => some (t, f t)
          | some (b, c) => if f t > c then some (t, f t) else some (b, c))
          (some (t0, f t0)) = some (t, f t) ∧
        (t = t0 ∨ t ∈ us) ∧ f t0 ≤ f t ∧ ∀ u ∈ us, f u ≤ f t := by
  induction us with
  | nil =>
    intro t0
    exact ⟨t0, rfl, Or.inl rfl, le_refl _, by simp⟩
  | cons u1 us ih =>
    intro t0
    by_cases hgt : f u1 > f t0
    · obtain ⟨t, ht, hmem, hle, hmax⟩ := ih u1
      refine ⟨t, ?_, ?_, ?_, ?_⟩
      · rw [List.foldl_cons]
        dsimp only
        rw [if_pos hgt]
        exact ht
      · rcases hmem with rfl | h
        · exact Or.inr (List.mem_cons_self t us)
        · exact Or.inr (List.mem_cons_of_mem u1 h)
      · omega
      · intro u hu
        rcases List.mem_cons.mp hu with rfl | hu'
        · exact hle
        · exact hmax u hu'
    · obtain ⟨t, ht, hmem, hle, hmax⟩ := ih t0
      refine ⟨t, ?_, ?_, ?_, ?_⟩
      · rw [List.foldl_cons]
        dsimp only
        rw [if_neg hgt]
        exact ht
      · rcases hmem with rfl | h
        · exact Or.inl rfl
        · exact Or.inr (List.mem_cons_of_mem u1 h)
      · exact hle
      · intro u hu
        rcases List.mem_cons.mp hu with rfl | hu'
        · omega
        · exact hmax u hu'

theorem mostCommonHM_spec (times : List (Nat × Nat)) (h : times ≠ []) :
    ∃ t, mostCommonHM times = some (t, times.count t) ∧ t ∈ times ∧
      ∀ u ∈ times, times.count u ≤ times.count t := by
  have hfu : firstUniques times ≠ [] :=
    fun hc => h ((firstUniques_eq_nil times).mp hc)
  unfold mostCommonHM
  cases hfc : firstUniques times with
  | nil => exact absurd hfc hfu
  | cons t0 rest =>
    obtain ⟨t, ht, hmem, hle0, hmax⟩ :=
      foldl_mostCommon_spec (fun u => times.count u) rest t0
    rw [List.foldl_cons]
    dsimp only
    refine ⟨t, ht, ?_, ?_⟩
    · have htf : t ∈ firstUniques times := by
        rw [hfc]
        rcases hmem with rfl | h'
        · exact List.mem_cons_self t rest
        · exact List.mem_cons_of_mem t0 h'
      exact (firstUniques_mem times t).mp htf
    · intro u hu
      have huf : u ∈ firstUniques times := (firstUniques_mem times u).mpr hu
      rw [hfc] at huf
      rcases List.mem_cons.mp huf with rfl | hu'
      · exact hle0
      · exact hmax u hu'

/-! ### Claim theorems -/

/-- C3: the confidence function returns `highest` when IR is present
and non-absent; otherwise `high` when the inferred value is present
and some scraper value's hour:minute equals the inferred value's
hour:minute; otherwise, with at least 2 scraper entries, `high` if any
two scraper hour:minute strings are equal and `medium` if none are;
otherwise `low`. -/
theorem C3_confidence_function (irVal inferred : Option Timestamp)
    (scrapers : List (Tag × Timestamp)) :
    compute_confidence irVal inferred scrapers =
      confidenceSpec irVal inferred scrapers :=
  compute_eq_spec irVal inferred scrapers

set_option maxRecDepth 4000 in
/-- C7: `is_during_trading_hours` is false for absent input; otherwise
with `m` the minutes-since-midnight of the wall-clock time it is true
iff `540 ≤ m < 690` or `750 ≤ m < 930`; hence true at 09:00 and 11:29,
false at 11:30 and 12:29, true at 12:30 and 15:29, false at 15:30. -/
theorem C7_trading_hours_boundary :
    is_during_trading_hours none = false ∧
    (∀ t : Timestamp,
      is_during_trading_hours (some t) = true ↔
        (540 ≤ t.hour * 60 + t.minute ∧ t.hour * 60 + t.minute < 690) ∨
        (750 ≤ t.hour * 60 + t.minute ∧ t.hour * 60 + t.minute < 930)) ∧
    (∀ d s, is_during_trading_hours (some ⟨d, 9, 0, s⟩) = true) ∧
    (∀ d s, is_during_trading_hours (some ⟨d, 11, 29, s⟩) = true) ∧
    (∀ d s, is_during_trading_hours (some ⟨d, 11, 30, s⟩) = false) ∧
    (∀ d s, is_during_trading_hours (some ⟨d, 12, 29, s⟩) = false) ∧
    (∀ d s, is_during_trading_hours (some ⟨d, 12, 30, s⟩) = true) ∧
    (∀ d s, is_during_trading_hours (some ⟨d, 15, 29, s⟩) = true) ∧
    (∀ d s, is_during_trading_hours (some ⟨d, 15, 30, s⟩) = false) := by
  refine ⟨rfl, ?_, fun d s => rfl, fun d s => rfl, fun d s => rfl, fun d s => rfl,
    fun d s => rfl, fun d s => rfl, fun d s => rfl⟩
  intro t
  unfold is_during_trading_hours
  dsimp only
  split_ifs with h1 h2
  · simp [h1]
  · simp [h2]
  · simp only [Bool.false_eq_true, false_iff]
    omega

/-- C10: when the target date fails to parse, `infer_datetime` returns
an absent inferred datetime with label `none` even for a non-empty
history list, which is returned unchanged. -/
theorem C10_parse_failure_label_none (past : List Timestamp) (h : past ≠ []) :
    infer_datetime none past = (none, "none", past) := by
  unfold infer_datetime
  rw [if_neg]
  simpa using h

/-- C10 witness at a concrete non-empty history list. -/
theorem C10_parse_failure_label_none_witness :
    ([(⟨1, 15, 0, 0⟩ : Timestamp), ⟨2, 9, 0, 0⟩] ≠ []) ∧
      infer_datetime none [(⟨1, 15, 0, 0⟩ : Timestamp), ⟨2, 9, 0, 0⟩] =
        (none, "none", [(⟨1, 15, 0, 0⟩ : Timestamp), ⟨2, 9, 0, 0⟩]) :=
  ⟨by decide, C10_parse_failure_label_none _ (by decide)⟩

/-- C2 fails on the code: with `sbi` and `matsui` both carrying the
literally identical instant 2026-02-10 15:00 (and no IR/inferred
observation), the scraper-agreement branch extends the winning
time-of-day group verbatim, so the candidate list contains the same
exact instant twice instead of collapsing it to a single candidate. -/
theorem C2_duplicate_candidates_eval :
    build_row_candidates
        ⟨none, none, some ⟨10, 15, 0, 0⟩, some ⟨10, 15, 0, 0⟩, none⟩ =
      ([⟨10, 15, 0, 0⟩, ⟨10, 15, 0, 0⟩], some ⟨10, 15, 0, 0⟩, "high") ∧
    ¬ (build_row_candidates
        ⟨none, none, some ⟨10, 15, 0, 0⟩, some ⟨10, 15, 0, 0⟩, none⟩).1.Nodup := by
  constructor
  · simp [build_row_candidates, rowValues, rowScrapers, availableCols, scraperCols,
      Row.get, compute_confidence, firstUniques, branchTail, largestGroup, timeGroups,
      firstMax, dedupAppend, hm, List.lookup, List.filter]
    decide
  · intro hnd
    have heq : build_row_candidates
        ⟨none, none, some ⟨10, 15, 0, 0⟩, some ⟨10, 15, 0, 0⟩, none⟩ =
        ([⟨10, 15, 0, 0⟩, ⟨10, 15, 0, 0⟩], some ⟨10, 15, 0, 0⟩, "high") := by
      simp [build_row_candidates, rowValues, rowScrapers, availableCols, scraperCols,
        Row.get, compute_confidence, firstUniques, branchTail, largestGroup, timeGroups,
        firstMax, dedupAppend, hm, List.lookup, List.filter]
      decide
    rw [heq] at hnd
    simp at hnd

/-- C6 fails on the code: merging `sbi` (code 7203 only) with `matsui`
(codes 7203 and 6758, the latter named "Sony") leaves row 6758 with an
absent name, because a later source's name column is only carried into
the merge when no earlier source had a name column; the
`name_dup`/`fillna` consolidation never fires. -/
theorem C6_merge_name_eval :
    ((merge_sources
        [("sbi", ⟨true, [⟨"7203", some "Toyota", some ⟨10, 15, 0, 0⟩⟩]⟩),
         ("matsui", ⟨true, [⟨"7203", some "ToyotaM", some ⟨10, 15, 0, 0⟩⟩,
                            ⟨"6758", some "Sony", some ⟨10, 16, 0, 0⟩⟩]⟩)]).bind
      (fun m => m.findCode "6758")).map (fun r => r.name) = some none ∧
    ((merge_sources
        [("sbi", ⟨true, [⟨"7203", some "Toyota", some ⟨10, 15, 0, 0⟩⟩]⟩),
         ("matsui", ⟨true, [⟨"7203", some "ToyotaM", some ⟨10, 15, 0, 0⟩⟩,
                            ⟨"6758", some "Sony", some ⟨10, 16, 0, 0⟩⟩]⟩)]).bind
      (fun m => m.findCode "7203")).map (fun r => r.name) =
        some (some "Toyota") := by
  constructor
  · decide
  · decide


/-- C1: IR supremacy — whenever the IR observation is present and
non-absent, reconciliation returns confidence `highest`, the selected
datetime is the IR value, and the candidate list begins with the IR
value, regardless of any other observations. -/
theorem C1_ir_supremacy (r : Row) (v : Timestamp) (h : r.ir = some v) :
    (build_row_candidates r).2.2 = "highest" ∧
    (build_row_candidates r).2.1 = some v ∧
    (build_row_candidates r).1.head? = some v := by
  have hlook : (rowValues r).lookup Tag.ir = some v := by
    rw [rowValues_lookup]; exact h
  have hemp : (rowValues r).isEmpty = false := by
    cases hv : rowValues r with
    | nil => rw [hv] at hlook; simp [List.lookup] at hlook
    | cons a l => rfl
  unfold build_row_candidates
  dsimp only
  rw [hemp]
  simp only [Bool.false_eq_true, if_false]
  rw [hlook]
  dsimp only
  obtain ⟨ext, hext, -⟩ :=
    dedupAppend_decomp ((rowValues r).filterMap fun p =>
      if p.1 ≠ Tag.ir then some p.2 else none) [v]
  rw [hext]
  refine ⟨?_, rfl, rfl⟩
  simp [compute_confidence]

/-- C1 witness: IR 09:00 beats two agreeing scrapers at 15:00. -/
theorem C1_ir_supremacy_witness :
    ((⟨some ⟨10, 9, 0, 0⟩, none, some ⟨10, 15, 0, 0⟩, some ⟨10, 15, 0, 0⟩,
        none⟩ : Row).ir = some ⟨10, 9, 0, 0⟩) ∧
    (build_row_candidates ⟨some ⟨10, 9, 0, 0⟩, none, some ⟨10, 15, 0, 0⟩,
        some ⟨10, 15, 0, 0⟩, none⟩).2.2 = "highest" ∧
    (build_row_candidates ⟨some ⟨10, 9, 0, 0⟩, none, some ⟨10, 15, 0, 0⟩,
        some ⟨10, 15, 0, 0⟩, none⟩).2.1 = some ⟨10, 9, 0, 0⟩ ∧
    (build_row_candidates ⟨some ⟨10, 9, 0, 0⟩, none, some ⟨10, 15, 0, 0⟩,
        some ⟨10, 15, 0, 0⟩, none⟩).1.head? = some ⟨10, 9, 0, 0⟩ :=
  ⟨rfl, C1_ir_supremacy _ _ rfl⟩

/-- C4: for every entity row, a present selected datetime is the first
element of the candidate list, and hence a member of it. -/
theorem C4_selected_first_candidate (r : Row) (v : Timestamp)
    (h : (build_row_candidates r).2.1 = some v) :
    (build_row_candidates r).1.head? = some v ∧
      v ∈ (build_row_candidates r).1 := by
  have hh := build_selected_eq_head r
  rw [h] at hh
  refine ⟨hh.symm, ?_⟩
  apply List.mem_of_mem_head?
  rw [← hh]
  rfl

/-- C4 witness: a single-scraper row selects that scraper's value,
which heads its candidate list. -/
theorem C4_selected_first_candidate_witness :
    (build_row_candidates ⟨none, none, some ⟨10, 15, 0, 0⟩, none, none⟩).2.1 =
        some ⟨10, 15, 0, 0⟩ ∧
    (build_row_candidates ⟨none, none, some ⟨10, 15, 0, 0⟩, none, none⟩).1.head? =
        some ⟨10, 15, 0, 0⟩ ∧
    ⟨10, 15, 0, 0⟩ ∈
      (build_row_candidates ⟨none, none, some ⟨10, 15, 0, 0⟩, none, none⟩).1 :=
  ⟨by decide, C4_selected_first_candidate _ _ (by decide)⟩

/-- C8: the parallel runner's result mapping keeps exactly the
non-raising tasks — with K of N tasks raising it has N − K entries,
contains each non-raising task's return value under its name, has no
entry for a raising task's name, and an empty task mapping yields an
empty result.  (The runner itself is a total function of the task
outcomes: it never raises; completion order only permutes the
mapping's insertion order, never its entries.) -/
theorem C8_parallel_fault_isolation {α : Type}
    (tasks : List (String × TaskOutcome α))
    (hnd : (tasks.map Prod.fst).Nodup) :
    (run_parallel tasks).length =
      tasks.length - (tasks.filter (fun p => match p.2 with
        | Except.error _ => true
        | Except.ok _ => false)).length ∧
    (∀ n a, (n, (Except.ok a : TaskOutcome α)) ∈ tasks →
      (n, a) ∈ run_parallel tasks) ∧
    (∀ n e, (n, (Except.error e : TaskOutcome α)) ∈ tasks →
      ∀ a, (n, a) ∉ run_parallel tasks) ∧
    run_parallel ([] : List (String × TaskOutcome α)) = [] := by
  refine ⟨?_, ?_, ?_, rfl⟩
  · have hlen : ∀ ts : List (String × TaskOutcome α),
        (run_parallel ts).length + (ts.filter (fun p => match p.2 with
          | Except.error _ => true
          | Except.ok _ => false)).length = ts.length := by
      intro ts
      induction ts with
      | nil => rfl
      | cons p ts ih =>
        rcases p with ⟨n, out⟩
        cases out with
        | ok a =>
          simp [run_parallel, List.filterMap_cons, List.filter_cons] at ih ⊢
          omega
        | error e =>
          simp [run_parallel, List.filterMap_cons, List.filter_cons] at ih ⊢
          omega
    have := hlen tasks
    omega
  · intro n a hmem
    unfold run_parallel
    exact List.mem_filterMap.mpr ⟨(n, Except.ok a), hmem, rfl⟩
  · intro n e hmem a hcontra
    unfold run_parallel at hcontra
    obtain ⟨p, hp, hfp⟩ := List.mem_filterMap.mp hcontra
    rcases p with ⟨n', out⟩
    cases out with
    | ok b =>
      simp only [Option.some_inj, Prod.mk.injEq] at hfp
      obtain ⟨rfl, rfl⟩ := hfp
      have hinj := List.inj_on_of_nodup_map hnd hmem hp rfl
      simp at hinj
    | error e' =>
      simp at hfp

/-- C8 witness: of three tasks with one raising, the result keeps the
two successes and omits the raising task. -/
theorem C8_parallel_fault_isolation_witness :
    (([("a", (Except.ok 1 : TaskOutcome Nat)),
       ("b", Except.error "ValueError"),
       ("c", Except.ok 3)].map Prod.fst).Nodup) ∧
    (run_parallel [("a", (Except.ok 1 : TaskOutcome Nat)),
       ("b", Except.error "ValueError"), ("c", Except.ok 3)]).length = 3 - 1 ∧
    ("a", 1) ∈ run_parallel [("a", (Except.ok 1 : TaskOutcome Nat)),
       ("b", Except.error "ValueError"), ("c", Except.ok 3)] ∧
    ("b", 2) ∉ run_parallel [("a", (Except.ok 1 : TaskOutcome Nat)),
       ("b", Except.error "ValueError"), ("c", Except.ok 3)] := by
  have h := C8_parallel_fault_isolation (α := Nat)
    [("a", Except.ok 1), ("b", Except.error "ValueError"), ("c", Except.ok 3)]
    (by decide)
  refine ⟨by decide, ?_, ?_, ?_⟩
  · have := h.1
    simpa using this
  · exact h.2.1 "a" 1 (List.mem_cons_self _ _)
  · exact h.2.2.1 "b" "ValueError"
      (List.mem_cons_of_mem _ (List.mem_cons_self _ _)) 2


/-- C9: with a non-empty history and a parseable target date, the
history-based inference labels `high` when all entries share one
hour:minute or the most frequent hour:minute accounts for at least 75%
of entries, `medium` when it accounts for at least 50%, and `low`
otherwise; an empty history yields an absent inferred datetime with
label `none`. -/
theorem C9_history_confidence_label (d : Nat) (past : List Timestamp)
    (h : past ≠ []) :
    ((infer_datetime (some d) past).2.1 =
      if (∀ x ∈ past.map hm, ∀ y ∈ past.map hm, x = y) ∨
          (∃ t ∈ past.map hm,
            4 * (past.map hm).count t ≥ 3 * (past.map hm).length) then "high"
      else if ∃ t ∈ past.map hm,
          2 * (past.map hm).count t ≥ (past.map hm).length then "medium"
      else "low") ∧
    (infer_datetime (some d) past).1.isSome = true ∧
    (∀ dv : Option Nat, infer_datetime dv [] = (none, "none", [])) := by
  have hmapne : past.map hm ≠ [] := by simpa using h
  obtain ⟨ts, hmc, htmem, hmax⟩ := mostCommonHM_spec (past.map hm) hmapne
  have hempty : past.isEmpty = false := by
    cases past with
    | nil => exact absurd rfl h
    | cons a l => rfl
  unfold infer_datetime
  rw [hempty]
  simp only [Bool.false_eq_true, if_false]
  rw [hmc]
  refine ⟨?_, rfl, fun dv => rfl⟩
  have hiff1 : ((firstUniques (past.map hm)).length = 1 ∨
      3 * (past.map hm).length ≤ 4 * (past.map hm).count ts) ↔
      ((∀ x ∈ past.map hm, ∀ y ∈ past.map hm, x = y) ∨
        (∃ t ∈ past.map hm,
          4 * (past.map hm).count t ≥ 3 * (past.map hm).length)) := by
    constructor
    · rintro (h1 | h1)
      · exact Or.inl ((firstUniques_length_one (past.map hm) hmapne).mp h1)
      · exact Or.inr ⟨ts, htmem, h1⟩
    · rintro (h1 | h1)
      · exact Or.inl ((firstUniques_length_one (past.map hm) hmapne).mpr h1)
      · obtain ⟨t, ht, h4⟩ := h1
        have := hmax t ht
        exact Or.inr (by omega)
  have hiff2 : ((past.map hm).length ≤ 2 * (past.map hm).count ts) ↔
      (∃ t ∈ past.map hm, 2 * (past.map hm).count t ≥ (past.map hm).length) := by
    constructor
    · intro h1
      exact ⟨ts, htmem, h1⟩
    · rintro ⟨t, ht, h2⟩
      have := hmax t ht
      omega
  by_cases hc1 : (∀ x ∈ past.map hm, ∀ y ∈ past.map hm, x = y) ∨
      (∃ t ∈ past.map hm, 4 * (past.map hm).count t ≥ 3 * (past.map hm).length)
  · rw [if_pos (hiff1.mpr hc1), if_pos hc1]
  · rw [if_neg (fun hx => hc1 (hiff1.mp hx)), if_neg hc1]
    by_cases hc2 : ∃ t ∈ past.map hm,
        2 * (past.map hm).count t ≥ (past.map hm).length
    · rw [if_pos (hiff2.mpr hc2), if_pos hc2]
    · rw [if_neg (fun hx => hc2 (hiff2.mp hx)), if_neg hc2]


/-- C9 witness: three history entries, two sharing 15:00 (ratio 2/3),
label follows the threshold rule; the empty-history case returns an
absent datetime with label `none`. -/
theorem C9_history_confidence_label_witness :
    (([(⟨1, 15, 0, 0⟩ : Timestamp), ⟨2, 15, 0, 0⟩, ⟨3, 9, 0, 0⟩] : List Timestamp) ≠ []) ∧
    ((infer_datetime (some 10)
        [(⟨1, 15, 0, 0⟩ : Timestamp), ⟨2, 15, 0, 0⟩, ⟨3, 9, 0, 0⟩]).2.1 =
      if (∀ x ∈ ([(⟨1, 15, 0, 0⟩ : Timestamp), ⟨2, 15, 0, 0⟩, ⟨3, 9, 0, 0⟩]).map hm,
            ∀ y ∈ ([(⟨1, 15, 0, 0⟩ : Timestamp), ⟨2, 15, 0, 0⟩, ⟨3, 9, 0, 0⟩]).map hm,
              x = y) ∨
          (∃ t ∈ ([(⟨1, 15, 0, 0⟩ : Timestamp), ⟨2, 15, 0, 0⟩, ⟨3, 9, 0, 0⟩]).map hm,
            4 * (([(⟨1, 15, 0, 0⟩ : Timestamp), ⟨2, 15, 0, 0⟩, ⟨3, 9, 0, 0⟩]).map hm).count t ≥
              3 * (([(⟨1, 15, 0, 0⟩ : Timestamp), ⟨2, 15, 0, 0⟩, ⟨3, 9, 0, 0⟩]).map hm).length)
        then "high"
      else if ∃ t ∈ ([(⟨1, 15, 0, 0⟩ : Timestamp), ⟨2, 15, 0, 0⟩, ⟨3, 9, 0, 0⟩]).map hm,
          2 * (([(⟨1, 15, 0, 0⟩ : Timestamp), ⟨2, 15, 0, 0⟩, ⟨3, 9, 0, 0⟩]).map hm).count t ≥
            (([(⟨1, 15, 0, 0⟩ : Timestamp), ⟨2, 15, 0, 0⟩, ⟨3, 9, 0, 0⟩]).map hm).length
        then "medium"
      else "low") ∧
    (infer_datetime (some 10)
        [(⟨1, 15, 0, 0⟩ : Timestamp), ⟨2, 15, 0, 0⟩, ⟨3, 9, 0, 0⟩]).1.isSome = true ∧
    infer_datetime (none : Option Nat) ([] : List Timestamp) = (none, "none", []) :=
  ⟨by decide,
   (C9_history_confidence_label 10 _ (by decide)).1,
   (C9_history_confidence_label 10 _ (by decide)).2.1,
   (C9_history_confidence_label 10
      [(⟨1, 15, 0, 0⟩ : Timestamp), ⟨2, 15, 0, 0⟩, ⟨3, 9, 0, 0⟩] (by decide)).2.2 none⟩


theorem C5_conf_high (r : Row)
    (h2 : 2 ≤ (rowScrapers r).length)
    (hdup : ¬ ((rowScrapers r).map (fun p => hm p.2)).Nodup)
    (hnm : ∀ i, r.inferred = some i → ∀ p ∈ rowScrapers r, hm p.2 ≠ hm i) :
    compute_confidence none r.inferred (rowScrapers r) = "high" := by
  unfold compute_confidence
  simp only [Option.isSome_none, Bool.false_eq_true, if_false]
  have hcond2 : (match r.inferred with
      | some i => !(rowScrapers r).isEmpty &&
          (rowScrapers r).any (fun p => hm p.2 == hm i)
      | none => false) = false := by
    cases hinf : r.inferred with
    | none => rfl
    | some i =>
      dsimp only
      have hany : (rowScrapers r).any (fun p => hm p.2 == hm i) = false := by
        rw [List.any_eq_false]
        intro p hp
        simp only [beq_iff_eq]
        exact hnm i hinf p hp
      rw [hany, Bool.and_false]
  rw [hcond2]
  simp only [Bool.false_eq_true, if_false]
  rw [if_pos h2, if_pos]
  exact fun hc => hdup ((firstUniques_length_eq_iff _).mp hc)


theorem C5_build_eq (r : Row)
    (hir : r.ir = none)
    (h2 : 2 ≤ (rowScrapers r).length)
    (hdup : ¬ ((rowScrapers r).map (fun p => hm p.2)).Nodup)
    (hnm : ∀ i, r.inferred = some i → ∀ p ∈ rowScrapers r, hm p.2 ≠ hm i) :
    build_row_candidates r =
      (dedupAppend (largestGroup (rowScrapers r)) ((rowValues r).map Prod.snd),
       (dedupAppend (largestGroup (rowScrapers r))
         ((rowValues r).map Prod.snd)).head?,
       compute_confidence none r.inferred (rowScrapers r)) := by
  have hconf := C5_conf_high r h2 hdup hnm
  have hvalsne : (rowValues r).isEmpty = false := by
    cases hv : rowValues r with
    | nil =>
      have hse : rowScrapers r = [] := by
        unfold rowScrapers
        rw [hv]
        rfl
      rw [hse] at h2
      simp at h2
    | cons a l => rfl
  have hlookir : (rowValues r).lookup Tag.ir = none := by
    rw [rowValues_lookup]; exact hir
  have hlookinf : (rowValues r).lookup Tag.inferred = r.inferred := by
    rw [rowValues_lookup]; rfl
  unfold build_row_candidates
  dsimp only
  rw [hvalsne]
  simp only [Bool.false_eq_true, if_false]
  rw [hlookir, hlookinf]
  cases hinf : r.inferred with
  | none =>
    dsimp only
    unfold branchTail
    rw [if_pos ⟨hinf ▸ hconf, h2⟩]
  | some i =>
    dsimp only
    have hanyf : (rowScrapers r).any (fun p => hm p.2 == hm i) = false := by
      rw [List.any_eq_false]
      intro p hp
      simp only [beq_iff_eq]
      exact hnm i hinf p hp
    rw [if_neg]
    · unfold branchTail
      rw [if_pos ⟨hinf ▸ hconf, h2⟩]
    · intro hc
      rw [hanyf] at hc
      exact absurd hc.2.2 (by simp)


theorem C5_group_facts (r : Row) (h2 : 2 ≤ (rowScrapers r).length) :
    ((timeGroups (rowScrapers r)).map Prod.fst =
      firstUniques ((rowScrapers r).map (fun p => hm p.2))) ∧
    (∃ pre post, (timeGroups (rowScrapers r)).map Prod.snd =
        pre ++ largestGroup (rowScrapers r) :: post ∧
      ∀ g ∈ pre, g.length < (largestGroup (rowScrapers r)).length) ∧
    (∀ g ∈ (timeGroups (rowScrapers r)).map Prod.snd,
      g.length ≤ (largestGroup (rowScrapers r)).length) ∧
    (∃ t, largestGroup (rowScrapers r) =
        ((rowScrapers r).map Prod.snd).filter (fun v => hm v == t) ∧
      largestGroup (rowScrapers r) ≠ []) := by
  have hscrne : rowScrapers r ≠ [] := by
    intro hc
    rw [hc] at h2
    simp at h2
  have hmapne : (rowScrapers r).map (fun p => hm p.2) ≠ [] := by
    simpa using hscrne
  have hfune : firstUniques ((rowScrapers r).map fun p => hm p.2) ≠ [] :=
    fun hc => hmapne ((firstUniques_eq_nil _).mp hc)
  have hgroupsne : (timeGroups (rowScrapers r)).map Prod.snd ≠ [] := by
    rw [timeGroups_eq, List.map_map]
    intro hc
    exact hfune (by simpa using hc)
  obtain ⟨⟨pre, post, hsplit, hpre⟩, hmax⟩ := firstMax_spec _ hgroupsne
  have hkeys : (timeGroups (rowScrapers r)).map Prod.fst =
      firstUniques ((rowScrapers r).map (fun p => hm p.2)) := by
    rw [timeGroups_eq, List.map_map]
    have hid : ∀ t ∈ firstUniques ((rowScrapers r).map (fun p => hm p.2)),
        (Prod.fst ∘ fun t => (t,
          ((rowScrapers r).map Prod.snd).filter (fun v => hm v == t))) t = t :=
      fun t ht => rfl
    rw [List.map_congr_left hid]
    exact List.map_id (firstUniques ((rowScrapers r).map (fun p => hm p.2)))
  have hgmem : largestGroup (rowScrapers r) ∈
      (timeGroups (rowScrapers r)).map Prod.snd := by
    have h0 : firstMax ((timeGroups (rowScrapers r)).map Prod.snd) ∈
        pre ++ firstMax ((timeGroups (rowScrapers r)).map Prod.snd) :: post :=
      List.mem_append.mpr (Or.inr (List.mem_cons_self _ _))
    rw [← hsplit] at h0
    exact h0
  refine ⟨hkeys, ⟨pre, post, hsplit, hpre⟩, hmax, ?_⟩
  rw [timeGroups_eq, List.map_map] at hgmem
  obtain ⟨t, htf, heq⟩ := List.mem_map.mp hgmem
  have heqf : ((rowScrapers r).map Prod.snd).filter (fun v => hm v == t) =
      largestGroup (rowScrapers r) := heq
  refine ⟨t, heqf.symm, ?_⟩
  have htm : t ∈ (rowScrapers r).map (fun p => hm p.2) :=
    (firstUniques_mem _ t).mp htf
  obtain ⟨p, hp, hpt⟩ := List.mem_map.mp htm
  have hpv : p.2 ∈ ((rowScrapers r).map Prod.snd).filter (fun v => hm v == t) := by
    rw [List.mem_filter]
    exact ⟨List.mem_map.mpr ⟨p, hp, rfl⟩, by simp [hpt]⟩
  intro hc
  rw [heqf, hc] at hpv
  exact absurd hpv (List.not_mem_nil p.2)


/-- C5: with IR absent, ≥ 2 scrapers sharing an hour:minute, and the
inferred value (if any) matching no scraper's time-of-day,
reconciliation returns confidence `high`; the time-of-day groups are
indexed in first-encounter order over scraper tags in canonical order;
the chosen group is of maximal size and every group listed before it
is strictly smaller (first-encountered tie-break); the chosen group is
exactly the scraper values sharing one time-of-day, in canonical order,
and non-empty; the candidate list begins with that group, contains
exactly the present observations' values, and everything after the
group is deduplicated against the list; the selected datetime is the
group's first member (canonical order). -/
theorem C5_scraper_agreement_group (r : Row)
    (hir : r.ir = none)
    (h2 : 2 ≤ (rowScrapers r).length)
    (hdup : ¬ ((rowScrapers r).map (fun p => hm p.2)).Nodup)
    (hnm : ∀ i, r.inferred = some i → ∀ p ∈ rowScrapers r, hm p.2 ≠ hm i) :
    (build_row_candidates r).2.2 = "high" ∧
    ((timeGroups (rowScrapers r)).map Prod.fst =
      firstUniques ((rowScrapers r).map (fun p => hm p.2))) ∧
    (∃ pre post, (timeGroups (rowScrapers r)).map Prod.snd =
        pre ++ largestGroup (rowScrapers r) :: post ∧
      ∀ g ∈ pre, g.length < (largestGroup (rowScrapers r)).length) ∧
    (∀ g ∈ (timeGroups (rowScrapers r)).map Prod.snd,
      g.length ≤ (largestGroup (rowScrapers r)).length) ∧
    (∃ t, largestGroup (rowScrapers r) =
        ((rowScrapers r).map Prod.snd).filter (fun v => hm v == t) ∧
      largestGroup (rowScrapers r) ≠ []) ∧
    ((build_row_candidates r).1.take (largestGroup (rowScrapers r)).length =
      largestGroup (rowScrapers r)) ∧
    (∀ v, v ∈ (build_row_candidates r).1 ↔ v ∈ (rowValues r).map Prod.snd) ∧
    ((build_row_candidates r).1.drop
      (largestGroup (rowScrapers r)).length).Nodup ∧
    (∀ v ∈ (build_row_candidates r).1.drop
        (largestGroup (rowScrapers r)).length,
      v ∉ largestGroup (rowScrapers r)) ∧
    (build_row_candidates r).2.1 = (largestGroup (rowScrapers r)).head? := by
  have hconf := C5_conf_high r h2 hdup hnm
  have hbuild := C5_build_eq r hir h2 hdup hnm
  obtain ⟨hkeys, hdecomp, hmax, t, hgfil, hgne⟩ := C5_group_facts r h2
  obtain ⟨ext, hex, hnodupE, hnotinE, hsubE, hcoverE⟩ :=
    dedupAppend_decomp ((rowValues r).map Prod.snd) (largestGroup (rowScrapers r))
  have hc1 : (build_row_candidates r).1 =
      largestGroup (rowScrapers r) ++ ext := by
    rw [hbuild]
    exact hex
  have hscrsub : ∀ v, v ∈ (rowScrapers r).map Prod.snd →
      v ∈ (rowValues r).map Prod.snd := by
    intro v hv
    obtain ⟨p, hp, rfl⟩ := List.mem_map.mp hv
    unfold rowScrapers at hp
    exact List.mem_map.mpr ⟨p, (List.mem_filter.mp hp).1, rfl⟩
  have hgsub : ∀ v, v ∈ largestGroup (rowScrapers r) →
      v ∈ (rowValues r).map Prod.snd := by
    intro v hv
    rw [hgfil] at hv
    exact hscrsub v (List.mem_filter.mp hv).1
  refine ⟨?_, hkeys, hdecomp, hmax, ⟨t, hgfil, hgne⟩, ?_, ?_, ?_, ?_, ?_⟩
  · rw [hbuild]
    exact hconf
  · rw [hc1]
    exact List.take_left _ _
  · intro v
    rw [hc1, List.mem_append]
    constructor
    · rintro (hv | hv)
      · exact hgsub v hv
      · exact hsubE v hv
    · intro hv
      rcases hcoverE v hv with hx | hx
      · exact Or.inl hx
      · exact Or.inr hx
  · rw [hc1, List.drop_left]
    exact hnodupE
  · rw [hc1, List.drop_left]
    exact hnotinE
  · rw [hbuild]
    dsimp only
    rw [hex]
    cases hg : largestGroup (rowScrapers r) with
    | nil => exact absurd hg hgne
    | cons a l => rfl


/-- C5 witness: scrapers sbi 2026-02-10 15:00, matsui 16:00,
tradersweb 15:00 on a later date (same time-of-day as sbi), inferred
14:00 matching nothing; the 15:00 group wins and sbi's value is
selected. -/
theorem C5_scraper_agreement_group_witness :
    (2 ≤ (rowScrapers ⟨none, some ⟨10, 14, 0, 0⟩, some ⟨10, 15, 0, 0⟩,
        some ⟨10, 16, 0, 0⟩, some ⟨11, 15, 0, 0⟩⟩).length) ∧
    (¬ ((rowScrapers ⟨none, some ⟨10, 14, 0, 0⟩, some ⟨10, 15, 0, 0⟩,
        some ⟨10, 16, 0, 0⟩, some ⟨11, 15, 0, 0⟩⟩).map
          (fun p => hm p.2)).Nodup) ∧
    (build_row_candidates ⟨none, some ⟨10, 14, 0, 0⟩, some ⟨10, 15, 0, 0⟩,
        some ⟨10, 16, 0, 0⟩, some ⟨11, 15, 0, 0⟩⟩).2.2 = "high" ∧
    (build_row_candidates ⟨none, some ⟨10, 14, 0, 0⟩, some ⟨10, 15, 0, 0⟩,
        some ⟨10, 16, 0, 0⟩, some ⟨11, 15, 0, 0⟩⟩).1.take
      (largestGroup (rowScrapers ⟨none, some ⟨10, 14, 0, 0⟩,
        some ⟨10, 15, 0, 0⟩, some ⟨10, 16, 0, 0⟩,
        some ⟨11, 15, 0, 0⟩⟩)).length =
      largestGroup (rowScrapers ⟨none, some ⟨10, 14, 0, 0⟩,
        some ⟨10, 15, 0, 0⟩, some ⟨10, 16, 0, 0⟩, some ⟨11, 15, 0, 0⟩⟩) ∧
    (build_row_candidates ⟨none, some ⟨10, 14, 0, 0⟩, some ⟨10, 15, 0, 0⟩,
        some ⟨10, 16, 0, 0⟩, some ⟨11, 15, 0, 0⟩⟩).2.1 =
      (largestGroup (rowScrapers ⟨none, some ⟨10, 14, 0, 0⟩,
        some ⟨10, 15, 0, 0⟩, some ⟨10, 16, 0, 0⟩,
        some ⟨11, 15, 0, 0⟩⟩)).head? := by
  have h := C5_scraper_agreement_group
    ⟨none, some ⟨10, 14, 0, 0⟩, some ⟨10, 15, 0, 0⟩, some ⟨10, 16, 0, 0⟩,
      some ⟨11, 15, 0, 0⟩⟩
    rfl (by decide) (by decide)
    (by
      intro i hi
      injection hi with hi'
      subst hi'
      decide)
  exact ⟨by decide, by decide, h.1, h.2.2.2.2.2.1, h.2.2.2.2.2.2.2.2.2⟩

end PykabuCalendar
